import Mathlib

/-!
Shallow embedding of `src/main.rs` (a Mach-O LC_RPATH inserter).

Buffers are lists of byte values (`List Nat`); every 32-bit read reduces each
byte modulo 256, so a `word32` value is always below 2^32, exactly as a `u32`
read from `u8` bytes is.  Fallible reads return `Except MachErr`, mirroring the
`std::io::Result` plumbing of the source: a read past the end of the buffer is
`truncatedInput` (Rust `UnexpectedEof`), an unknown magic is
`unrecognizedFormat` (Rust `InvalidData`, "Not a Mach-O file"), and the
`cmdsize - 8` underflow check in the load-command loop is `sizeUnderflow`
(the checked `u32` subtraction `cmdsize - 8` in the source, which is an
arithmetic-overflow failure when `cmdsize < 8`).
-/

/-- Magic constant `MH_MAGIC` from the source. -/
def MH_MAGIC : Nat := 0xfeedface

/-- Magic constant `MH_CIGAM` from the source. -/
def MH_CIGAM : Nat := 0xcefaedfe

/-- Magic constant `MH_MAGIC_64` from the source. -/
def MH_MAGIC_64 : Nat := 0xfeedfacf

/-- Magic constant `MH_CIGAM_64` from the source. -/
def MH_CIGAM_64 : Nat := 0xcffaedfe

/-- Load-command tag `LC_RPATH` from the source. -/
def LC_RPATH : Nat := 0x8000001c

/-- Error conditions of the parser/mutator, mirroring the failure modes of the
source: `truncatedInput` for reads past the end of the buffer,
`unrecognizedFormat` for an unknown magic, `sizeUnderflow` for a load command
whose declared size is below the 8-byte frame (the `cmdsize - 8` subtraction). -/
inductive MachErr where
  | unrecognizedFormat
  | truncatedInput
  | sizeUnderflow
deriving DecidableEq, Repr

/-- Byte order selector, mirroring the `BigEndian` / `LittleEndian` type
parameters of the source's reader. -/
inductive ByteOrder where
  | big
  | little
deriving DecidableEq, Repr

/-- Assemble four bytes into a 32-bit value in the given order.  Each byte is
reduced modulo 256, as a `u8` is. -/
def word32 (ord : ByteOrder) (b0 b1 b2 b3 : Nat) : Nat :=
  match ord with
  | ByteOrder.big => (b0 % 256) * 16777216 + (b1 % 256) * 65536 + (b2 % 256) * 256 + (b3 % 256)
  | ByteOrder.little => (b3 % 256) * 16777216 + (b2 % 256) * 65536 + (b1 % 256) * 256 + (b0 % 256)

/-- Interpret a 32-bit value as a signed `i32`, for the `read_i32` calls of the
source. -/
def asI32 (w : Nat) : Int :=
  if w < 2147483648 then (w : Int) else (w : Int) - 4294967296

/-- Read a 32-bit value at byte position `pos` (the cursor reads of the source:
`read_u32::<T>()`).  Fails with `truncatedInput` when fewer than 4 bytes
remain, as `read_u32` does at end of input. -/
def readU32At (ord : ByteOrder) (data : List Nat) (pos : Nat) : Except MachErr Nat :=
  match data[pos]?, data[pos + 1]?, data[pos + 2]?, data[pos + 3]? with
  | some b0, some b1, some b2, some b3 => Except.ok (word32 ord b0 b1 b2 b3)
  | _, _, _, _ => Except.error MachErr.truncatedInput

/-- Read `n` raw bytes at position `pos` (the `read_exact` call of the source).
Fails with `truncatedInput` when fewer than `n` bytes remain. -/
def readBytes (data : List Nat) (pos n : Nat) : Except MachErr (List Nat) :=
  if pos + n ≤ data.length then Except.ok ((data.drop pos).take n)
  else Except.error MachErr.truncatedInput

/-- The fixed Mach-O header, field for field the `MachHeader` struct of the
source (`reserved` is 0 for 32-bit files, as in `read_header`). -/
structure MachHeader where
  magic : Nat
  cputype : Int
  cpusubtype : Int
  filetype : Nat
  ncmds : Nat
  sizeofcmds : Nat
  flags : Nat
  reserved : Nat
deriving DecidableEq, Repr

/-- One load command: tag, declared size, and the `cmdsize - 8` payload bytes,
the `LoadCommand` struct of the source. -/
structure LoadCommand where
  cmd : Nat
  cmdsize : Nat
  data : List Nat
deriving DecidableEq, Repr

/-- The `read_header::<T>` function of the source: reads magic, cputype,
cpusubtype, filetype, ncmds, sizeofcmds, flags at offsets 0..28, and the
reserved word at 28 only for 64-bit files.  The cursor starts at position 0,
exactly as after `cursor.set_position(0)` in `parse_macho`. -/
def read_header (ord : ByteOrder) (data : List Nat) (is64 : Bool) : Except MachErr MachHeader := do
  let magic ← readU32At ord data 0
  let cputype ← readU32At ord data 4
  let cpusubtype ← readU32At ord data 8
  let filetype ← readU32At ord data 12
  let ncmds ← readU32At ord data 16
  let sizeofcmds ← readU32At ord data 20
  let flags ← readU32At ord data 24
  let reserved ← (if is64 then readU32At ord data 28 else Except.ok 0)
  Except.ok { magic := magic, cputype := asI32 cputype, cpusubtype := asI32 cpusubtype,
              filetype := filetype, ncmds := ncmds, sizeofcmds := sizeofcmds,
              flags := flags, reserved := reserved }

/-- The load-command loop of `parse_macho`: `n` iterations, each reading a
4-byte tag, a 4-byte size, and `cmdsize - 8` payload bytes, advancing the
cursor by `cmdsize`.  A declared size below 8 makes the source's checked `u32`
subtraction `cmdsize - 8` fail; that arithmetic-range failure is
`sizeUnderflow` here.  Returns the records together with the final cursor
position. -/
def readCmds (ord : ByteOrder) (data : List Nat) : Nat → Nat → Except MachErr (List LoadCommand × Nat)
  | 0, pos => Except.ok ([], pos)
  | n + 1, pos => do
    let cmd ← readU32At ord data pos
    let cmdsize ← readU32At ord data (pos + 4)
    if cmdsize < 8 then Except.error MachErr.sizeUnderflow
    else do
      let payload ← readBytes data (pos + 8) (cmdsize - 8)
      let res ← readCmds ord data n (pos + cmdsize)
      Except.ok (LoadCommand.mk cmd cmdsize payload :: res.1, res.2)

/-- The magic match of `parse_macho`: the first 4 bytes are read big-endian and
matched against the four known constants, yielding `(is_64, is_little_endian)`;
anything else is `unrecognizedFormat` ("Not a Mach-O file"). -/
def detectFormat (data : List Nat) : Except MachErr (Bool × Bool) := do
  let magic ← readU32At ByteOrder.big data 0
  if magic = MH_MAGIC then Except.ok (false, false)
  else if magic = MH_CIGAM then Except.ok (false, true)
  else if magic = MH_MAGIC_64 then Except.ok (true, false)
  else if magic = MH_CIGAM_64 then Except.ok (true, true)
  else Except.error MachErr.unrecognizedFormat

/-- The byte order selected from the `is_little_endian` flag. -/
def ordOf (isLE : Bool) : ByteOrder :=
  if isLE then ByteOrder.little else ByteOrder.big

/-- The `parse_macho` function of the source: detect the format from the magic,
re-read the header from position 0 in the detected order (28 bytes, plus the
reserved word for 64-bit files, so the cursor is then at 28 or 32), then read
`ncmds` load commands. -/
def parse_macho (data : List Nat) : Except MachErr (MachHeader × List LoadCommand) := do
  let fmt ← detectFormat data
  let ord := ordOf fmt.2
  let header ← read_header ord data fmt.1
  let start := if fmt.1 then 32 else 28
  let res ← readCmds ord data header.ncmds start
  Except.ok (header, res.1)

/-- Clear the low three bits: the source's `x & !7` on `usize`. -/
def alignDown8 (x : Nat) : Nat := x - x % 8

/-- The `cmdsize` computed by `add_rpath`:
`path_len = new_path.len() + 1` and `cmdsize = (8 + path_len + 7) & !7`.
Note the source accounts only for the 8-byte cmd/cmdsize frame here, not for
the 4-byte path-offset field it later writes. -/
def cmdsizeOf (path : List Nat) : Nat :=
  alignDown8 (8 + (path.length + 1) + 7)

/-- Serialize a 32-bit value as four little-endian bytes — the
`write_u32::<LittleEndian>` calls of the source (values of 2^32 or more are
truncated exactly as `as u32` truncates). -/
def le32 (v : Nat) : List Nat :=
  [v % 256, v / 256 % 256, v / 65536 % 256, v / 16777216 % 256]

/-- The byte sequence `add_rpath` writes at the insertion offset: tag, cmdsize
and the constant 16 little-endian, the path bytes, one NUL, and
`cmdsize - (8 + path_len)` padding zeros. -/
def buildRecord (path : List Nat) : List Nat :=
  let path_len := path.length + 1
  let cmdsize := cmdsizeOf path
  le32 LC_RPATH ++ le32 cmdsize ++ le32 16 ++ path ++ [0] ++
    List.replicate (cmdsize - (8 + path_len)) 0

/-- The header size chosen by `add_rpath` from the parsed header's magic:
32 when `header.magic == MH_MAGIC_64 || header.magic == MH_CIGAM_64`, else
28. -/
def headerSizeOf (header : MachHeader) : Nat :=
  if header.magic = MH_MAGIC_64 ∨ header.magic = MH_CIGAM_64 then 32 else 28

/-- The insertion offset of `add_rpath`: header size plus the sum of every
existing record's declared size. -/
def insertOffsetOf (header : MachHeader) (cmds : List LoadCommand) : Nat :=
  headerSizeOf header + (cmds.map LoadCommand.cmdsize).sum

/-- Overwrite `bs.length` bytes of `buf` at position `pos` — a cursor
`write` at an in-range position (every use below writes inside the buffer). -/
def writeAt (buf : List Nat) (pos : Nat) (bs : List Nat) : List Nat :=
  buf.take pos ++ bs ++ buf.drop (pos + bs.length)

/-- The write phase of `add_rpath`, as a pure transformation of the buffer:
capture the tail at the insertion offset, write the new record there followed
by the captured tail (a cursor write past the current end zero-fills any gap,
hence `gap`; it is empty whenever the parse succeeded), then rewrite `ncmds`
and `sizeofcmds` little-endian at offsets 16 and 20. -/
def spliceBuffer (data path : List Nat) (header : MachHeader) (cmds : List LoadCommand) :
    List Nat :=
  let insert_offset := insertOffsetOf header cmds
  let rest_of_file := data.drop insert_offset
  let gap := List.replicate (insert_offset - data.length) 0
  let buf1 := data.take insert_offset ++ gap ++ buildRecord path ++ rest_of_file
  let buf2 := writeAt buf1 16 (le32 (header.ncmds + 1))
  writeAt buf2 20 (le32 (header.sizeofcmds + cmdsizeOf path))

/-- The `add_rpath` entry point: parse, then splice.  Every fallible operation
of the source occurs inside `parse_macho`; all cursor writes come after it and
write to a `Vec`-backed cursor, which cannot fail. -/
def add_rpath (data path : List Nat) : Except MachErr (List Nat) :=
  match parse_macho data with
  | Except.error e => Except.error e
  | Except.ok hc => Except.ok (spliceBuffer data path hc.1 hc.2)

/-- State-threaded view of `add_rpath`'s in-place mutation of `&mut Vec<u8>`:
the result pairs the buffer after the call with the error, if any.  The error
branch returns the buffer unchanged because in the source the only fallible
step, `parse_macho`, takes the buffer as `&[u8]` and performs no write, and
every write that follows it is infallible. -/
def add_rpathState (data path : List Nat) : List Nat × Option MachErr :=
  match parse_macho data with
  | Except.error e => (data, some e)
  | Except.ok hc => (spliceBuffer data path hc.1 hc.2, none)

/-- The record size the spec's Record Builder contract prescribes, following
its words: `payloadLength = 4 (offset field) + len(path) + 1 (terminator)`,
and the total record size `8 + payloadLength` rounded up to the next multiple
of 8. -/
def specCmdsize (pathLen : Nat) : Nat :=
  alignDown8 (8 + (4 + pathLen + 1) + 7)

/-- Big-endian serialization of a 32-bit value, used to state what re-writing
a counter in a big-endian file's detected order would produce. -/
def be32 (v : Nat) : List Nat :=
  [v / 16777216 % 256, v / 65536 % 256, v / 256 % 256, v % 256]

/-- The path "/x" of the spec's worked example, as UTF-8 bytes. -/
def exPath : List Nat := [47, 120]

/-- The spec's worked example: a 40-byte 64-bit file, big-endian (native)
order, `ncmds = 0`, `sizeofcmds = 0`, a 32-byte header followed by 8 trailing
marker bytes. -/
def ex64Buf : List Nat :=
  [0xfe, 0xed, 0xfa, 0xcf] ++ List.replicate 28 0 ++
    [0x11, 0x22, 0x33, 0x44, 0x55, 0x66, 0x77, 0x88]

/-- The header `parse_macho` produces for `ex64Buf` (and for the little-endian
64-bit buffer below, whose magic normalizes to `MH_MAGIC_64`). -/
def exHeader64 : MachHeader :=
  { magic := 0xfeedfacf, cputype := 0, cpusubtype := 0, filetype := 0,
    ncmds := 0, sizeofcmds := 0, flags := 0, reserved := 0 }

/-- A minimal 32-bit big-endian (native-order) file: 28-byte header, no load
commands, no trailing content. -/
def beBuf : List Nat := [0xfe, 0xed, 0xfa, 0xce] ++ List.replicate 24 0

/-- The header `parse_macho` produces for `beBuf`. -/
def beHeader : MachHeader :=
  { magic := 0xfeedface, cputype := 0, cpusubtype := 0, filetype := 0,
    ncmds := 0, sizeofcmds := 0, flags := 0, reserved := 0 }

/-- A minimal 64-bit swapped-order (little-endian) file: the stored magic reads
`MH_CIGAM_64` big-endian, and the header re-read little-endian normalizes it to
`MH_MAGIC_64`. -/
def leBuf64 : List Nat := [0xcf, 0xfa, 0xed, 0xfe] ++ List.replicate 28 0

/-! ### Basic lemmas about the reader primitives -/

theorem readU32At_error_eq {ord : ByteOrder} {data : List Nat} {pos : Nat} {e : MachErr}
    (h : readU32At ord data pos = Except.error e) : e = MachErr.truncatedInput := by
  unfold readU32At at h
  cases h0 : data[pos]? <;> cases h1 : data[pos + 1]? <;>
    cases h2 : data[pos + 2]? <;> cases h3 : data[pos + 3]? <;>
    simp [h0, h1, h2, h3] at h <;> exact h.symm

theorem take_getElem_some {l : List Nat} {n i b : Nat} (h : (l.take n)[i]? = some b) :
    l[i]? = some b := by
  rw [List.getElem?_take] at h
  split at h
  case isTrue => exact h
  case isFalse => cases h

theorem readU32At_take_ok {ord : ByteOrder} {data : List Nat} {n pos v : Nat}
    (h : readU32At ord (data.take n) pos = Except.ok v) : readU32At ord data pos = Except.ok v := by
  unfold readU32At at h ⊢
  cases h0 : (data.take n)[pos]? <;> cases h1 : (data.take n)[pos + 1]? <;>
    cases h2 : (data.take n)[pos + 2]? <;> cases h3 : (data.take n)[pos + 3]? <;>
    simp [h0, h1, h2, h3] at h
  simp [take_getElem_some h0, take_getElem_some h1, take_getElem_some h2,
        take_getElem_some h3, h]

theorem readBytes_error_eq {data : List Nat} {pos n : Nat} {e : MachErr}
    (h : readBytes data pos n = Except.error e) : e = MachErr.truncatedInput := by
  unfold readBytes at h
  split at h
  case isTrue => cases h
  case isFalse => cases h; rfl

theorem readBytes_take_ok {data : List Nat} {m pos n : Nat} {l : List Nat}
    (h : readBytes (data.take m) pos n = Except.ok l) : readBytes data pos n = Except.ok l := by
  unfold readBytes at h ⊢
  split at h
  case isFalse => cases h
  case isTrue hle =>
    have hlt : (data.take m).length = min m data.length := by simp [List.length_take]
    have hm : pos + n ≤ m := by omega
    have hlen : pos + n ≤ data.length := by omega
    rw [if_pos hlen]
    rw [List.drop_take, List.take_take] at h
    have hmin : n ⊓ (m - pos) = n := by omega
    rw [hmin] at h
    exact h

/-! ### Lemmas about `writeAt` -/

theorem length_writeAt {buf bs : List Nat} {pos : Nat} (h : pos + bs.length ≤ buf.length) :
    (writeAt buf pos bs).length = buf.length := by
  simp [writeAt]
  omega

theorem writeAt_read {buf bs : List Nat} {pos : Nat} (h : pos ≤ buf.length) :
    ((writeAt buf pos bs).drop pos).take bs.length = bs := by
  unfold writeAt
  have hl : (buf.take pos).length = pos := by simp; omega
  rw [List.append_assoc, List.drop_append_eq_append_drop, hl, Nat.sub_self, List.drop_zero,
    List.drop_take, Nat.sub_self, List.take_zero, List.nil_append,
    List.take_append_eq_append_take, List.take_length, Nat.sub_self, List.take_zero,
    List.append_nil]

theorem writeAt_read_before {buf bs : List Nat} {pos i n : Nat}
    (hin : i + n ≤ pos) (hp : pos ≤ buf.length) :
    ((writeAt buf pos bs).drop i).take n = (buf.drop i).take n := by
  unfold writeAt
  have hl : (buf.take pos).length = pos := by simp; omega
  rw [List.append_assoc, List.drop_append_eq_append_drop, hl,
    List.take_append_eq_append_take]
  have hdl : (List.drop i (buf.take pos)).length = pos - i := by simp [hl]
  rw [hdl]
  have h0 : n - (pos - i) = 0 := by omega
  rw [h0, List.take_zero, List.append_nil, List.drop_take, List.take_take]
  congr 1
  omega

/-! ### Lemmas about the new record and the splice -/

theorem le32_length (v : Nat) : (le32 v).length = 4 := rfl

theorem cmdsizeOf_ge (path : List Nat) : 8 + (path.length + 1) ≤ cmdsizeOf path := by
  unfold cmdsizeOf alignDown8
  omega

theorem cmdsizeOf_ge16 (path : List Nat) : 16 ≤ cmdsizeOf path := by
  unfold cmdsizeOf alignDown8
  omega

theorem cmdsizeOf_mod8 (path : List Nat) : cmdsizeOf path % 8 = 0 := by
  unfold cmdsizeOf alignDown8
  omega

theorem length_buildRecord (path : List Nat) : (buildRecord path).length = cmdsizeOf path + 4 := by
  have h := cmdsizeOf_ge path
  simp [buildRecord, le32]
  omega

theorem counters_slices {buf1 : List Nat} (h : 20 ≤ buf1.length) (a b : Nat) :
    ((writeAt (writeAt buf1 16 (le32 a)) 20 (le32 b)).drop 16).take 4 = le32 a ∧
    ((writeAt (writeAt buf1 16 (le32 a)) 20 (le32 b)).drop 20).take 4 = le32 b := by
  have hlen1 : (writeAt buf1 16 (le32 a)).length = buf1.length :=
    length_writeAt (by rw [le32_length]; omega)
  constructor
  · have h1 : ((writeAt (writeAt buf1 16 (le32 a)) 20 (le32 b)).drop 16).take 4 =
        ((writeAt buf1 16 (le32 a)).drop 16).take 4 :=
      writeAt_read_before (by omega) (by omega)
    rw [h1, ← le32_length a]
    exact writeAt_read (by omega)
  · rw [← le32_length b]
    exact writeAt_read (by omega)

theorem splice_counters (data path : List Nat) (header : MachHeader) (cmds : List LoadCommand) :
    ((spliceBuffer data path header cmds).drop 16).take 4 = le32 (header.ncmds + 1) ∧
    ((spliceBuffer data path header cmds).drop 20).take 4 =
      le32 (header.sizeofcmds + cmdsizeOf path) := by
  have h1 := length_buildRecord path
  have h2 := cmdsizeOf_ge16 path
  have hb : 20 ≤ (data.take (insertOffsetOf header cmds) ++
      List.replicate (insertOffsetOf header cmds - data.length) 0 ++ buildRecord path ++
      data.drop (insertOffsetOf header cmds)).length := by
    simp
    omega
  have hc := counters_slices hb (header.ncmds + 1) (header.sizeofcmds + cmdsizeOf path)
  simpa [spliceBuffer] using hc

/-! ### Claim theorems -/

/-- C1: the spec's Record Builder computes `cmdsize = round_up(13 + L, 8)`
(payload = 4-byte offset field + path + NUL).  The code computes
`cmdsize = round_up(9 + L, 8)`, omitting the 4-byte offset field it then
writes: for a 7-byte path the code's `cmdsize` is 16 while the prescribed
value is 24, and the record bytes the code emits are 20 — more than the
declared size. -/
theorem c1_cmdsize_omits_offset_field :
    cmdsizeOf (List.replicate 7 47) = 16 ∧
    specCmdsize 7 = 24 ∧
    (buildRecord (List.replicate 7 47)).length = 20 ∧
    cmdsizeOf (List.replicate 7 47) ≠ specCmdsize 7 :=
  ⟨rfl, rfl, rfl, by decide⟩

/-- C2: the claim says the buffer grows by exactly the new record's `cmdsize`,
with worked example 40 + 16 = 56.  The code writes `cmdsize + 4` record bytes
(tag, size, offset field, path, NUL, padding), so the example buffer grows to
60, not 56. -/
theorem c2_length_growth_exceeds_cmdsize :
    Except.map List.length (add_rpath ex64Buf exPath) = Except.ok 60 ∧
    cmdsizeOf exPath = 16 ∧
    ex64Buf.length = 40 ∧
    (40 : Nat) + 16 ≠ 60 :=
  ⟨rfl, rfl, rfl, by decide⟩

/-- C3: the claim says trailing bytes reappear shifted by exactly `cmdsize`
(at offset 48 in the worked example).  The code shifts them by `cmdsize + 4`:
at offset 48 the output holds record padding zeros, and the 8 trailing marker
bytes reappear only at offset 52. -/
theorem c3_trailing_shifted_by_cmdsize_plus_four :
    Except.map (fun out => ((out.drop 48).take 4, out.drop 52)) (add_rpath ex64Buf exPath) =
      Except.ok ([0, 0, 0, 0], [0x11, 0x22, 0x33, 0x44, 0x55, 0x66, 0x77, 0x88]) ∧
    ex64Buf.drop 32 = [0x11, 0x22, 0x33, 0x44, 0x55, 0x66, 0x77, 0x88] ∧
    ([0x11, 0x22, 0x33, 0x44] : List Nat) ≠ [0, 0, 0, 0] :=
  ⟨rfl, rfl, by decide⟩

/-- C4: after a successful insertion the serialized command-count field at
offset 16 holds the old value plus 1 and the sizeof-commands field at offset
20 holds the old value plus the new record's `cmdsize` (both written as 32-bit
fields, little-endian — see C5). -/
theorem c4_header_counters_updated (data path : List Nat) (header : MachHeader)
    (cmds : List LoadCommand) (h : parse_macho data = Except.ok (header, cmds)) :
    ∃ out, add_rpath data path = Except.ok out ∧
      (out.drop 16).take 4 = le32 (header.ncmds + 1) ∧
      (out.drop 20).take 4 = le32 (header.sizeofcmds + cmdsizeOf path) := by
  refine ⟨spliceBuffer data path header cmds, ?_, (splice_counters data path header cmds).1,
    (splice_counters data path header cmds).2⟩
  unfold add_rpath
  rw [h]

/-- Witness for C4 on the spec's worked example (64-bit native-order file,
empty table). -/
theorem c4_header_counters_updated_witness :
    ∃ out, add_rpath ex64Buf exPath = Except.ok out ∧
      (out.drop 16).take 4 = le32 (exHeader64.ncmds + 1) ∧
      (out.drop 20).take 4 = le32 (exHeader64.sizeofcmds + cmdsizeOf exPath) :=
  c4_header_counters_updated ex64Buf exPath exHeader64 [] rfl

/-- C5 counterexample: the claim says the counters are re-serialized in the
byte order used to read the header, so a big-endian (native) file's counters
would be written big-endian.  On a 32-bit big-endian file the code writes the
updated command count at offset 16 as `le32 1 = [1,0,0,0]`, not
`be32 1 = [0,0,0,1]`. -/
theorem c5_counters_not_big_endian_cex :
    Except.map (fun out => (out.drop 16).take 4) (add_rpath beBuf exPath) = Except.ok (le32 1) ∧
    detectFormat beBuf = Except.ok (false, false) ∧
    le32 1 ≠ be32 1 :=
  ⟨rfl, rfl, by decide⟩

/-- C5 amended: the two counters are re-serialized at offsets 16 and 20 always
in little-endian order, regardless of the detected byte order — here stated
for any input whose detected order is big-endian (native). -/
theorem c5_counters_little_endian_amended (data path : List Nat) (header : MachHeader)
    (cmds : List LoadCommand) (is64 : Bool)
    (hp : parse_macho data = Except.ok (header, cmds))
    (hd : detectFormat data = Except.ok (is64, false)) :
    ∃ out, add_rpath data path = Except.ok out ∧
      (out.drop 16).take 4 = le32 (header.ncmds + 1) ∧
      (out.drop 20).take 4 = le32 (header.sizeofcmds + cmdsizeOf path) := by
  refine ⟨spliceBuffer data path header cmds, ?_, (splice_counters data path header cmds).1,
    (splice_counters data path header cmds).2⟩
  unfold add_rpath
  rw [hp]

/-- Witness for the amended C5 on a 32-bit big-endian (native-order) file. -/
theorem c5_counters_little_endian_amended_witness :
    ∃ out, add_rpath beBuf exPath = Except.ok out ∧
      (out.drop 16).take 4 = le32 (beHeader.ncmds + 1) ∧
      (out.drop 20).take 4 = le32 (beHeader.sizeofcmds + cmdsizeOf exPath) :=
  c5_counters_little_endian_amended beBuf exPath beHeader [] false rfl rfl

/-- C8: if the mutation entry point fails, the failure comes from the
read-only parse phase and the buffer is left byte-for-byte as it was read —
the state-threaded view returns the original buffer unchanged. -/
theorem c8_no_mutation_on_failure (data path : List Nat) (e : MachErr)
    (h : add_rpath data path = Except.error e) :
    parse_macho data = Except.error e ∧ add_rpathState data path = (data, some e) := by
  unfold add_rpath at h
  cases hp : parse_macho data with
  | error e0 =>
    rw [hp] at h
    cases h
    exact ⟨rfl, by unfold add_rpathState; rw [hp]⟩
  | ok hc =>
    rw [hp] at h
    cases h

/-- Witness for C8: the empty buffer fails (truncated magic) and is returned
unchanged. -/
theorem c8_no_mutation_on_failure_witness :
    parse_macho ([] : List Nat) = Except.error MachErr.truncatedInput ∧
    add_rpathState [] [] = ([], some MachErr.truncatedInput) :=
  c8_no_mutation_on_failure [] [] MachErr.truncatedInput rfl

/-! ### Inversion lemmas for `Except` binds -/

theorem bind_ok_inv {α β : Type} {x : Except MachErr α} {f : α → Except MachErr β} {b : β}
    (h : x >>= f = Except.ok b) : ∃ a, x = Except.ok a ∧ f a = Except.ok b := by
  cases x with
  | error e => simp [Bind.bind, Except.bind] at h
  | ok a => exact ⟨a, rfl, by simpa [Bind.bind, Except.bind] using h⟩

theorem bind_error_inv {α β : Type} {x : Except MachErr α} {f : α → Except MachErr β} {e : MachErr}
    (h : x >>= f = Except.error e) :
    x = Except.error e ∨ ∃ a, x = Except.ok a ∧ f a = Except.error e := by
  cases x with
  | error e0 =>
    left
    have he : e0 = e := by simpa [Bind.bind, Except.bind] using h
    rw [he]
  | ok a => exact Or.inr ⟨a, rfl, by simpa [Bind.bind, Except.bind] using h⟩

/-- C6: on any buffer with at least a 4-byte prefix, the Format Detector reads
the prefix as a big-endian 32-bit value and maps the four magic constants to
their (word-size, byte-order) pairs; every other value fails with
`unrecognizedFormat`. -/
theorem c6_format_detector (b0 b1 b2 b3 : Nat) (rest : List Nat)
    (h0 : b0 < 256) (h1 : b1 < 256) (h2 : b2 < 256) (h3 : b3 < 256) :
    detectFormat (b0 :: b1 :: b2 :: b3 :: rest) =
      (if b0 * 16777216 + b1 * 65536 + b2 * 256 + b3 = MH_MAGIC then
        Except.ok (false, false)
      else if b0 * 16777216 + b1 * 65536 + b2 * 256 + b3 = MH_CIGAM then
        Except.ok (false, true)
      else if b0 * 16777216 + b1 * 65536 + b2 * 256 + b3 = MH_MAGIC_64 then
        Except.ok (true, false)
      else if b0 * 16777216 + b1 * 65536 + b2 * 256 + b3 = MH_CIGAM_64 then
        Except.ok (true, true)
      else Except.error MachErr.unrecognizedFormat) := by
  have hw : readU32At ByteOrder.big (b0 :: b1 :: b2 :: b3 :: rest) 0 =
      Except.ok (b0 * 16777216 + b1 * 65536 + b2 * 256 + b3) := by
    simp [readU32At, word32, Nat.mod_eq_of_lt, h0, h1, h2, h3]
  unfold detectFormat
  rw [hw]
  rfl

/-- Witness for C6 at the 32-bit native magic. -/
theorem c6_format_detector_witness :
    detectFormat [0xfe, 0xed, 0xfa, 0xce] = Except.ok (false, false) :=
  (c6_format_detector 0xfe 0xed 0xfa 0xce [] (by decide) (by decide) (by decide)
    (by decide)).trans rfl

/-- C7: whenever the load-command walk reads a declared size below the 8-byte
minimum frame, it fails with `sizeUnderflow` (the `cmdsize - 8` arithmetic
range condition), which is a different condition from `truncatedInput`. -/
theorem c7_size_underflow (ord : ByteOrder) (data : List Nat) (n pos c s : Nat)
    (hc : readU32At ord data pos = Except.ok c)
    (hs : readU32At ord data (pos + 4) = Except.ok s)
    (h8 : s < 8) :
    readCmds ord data (n + 1) pos = Except.error MachErr.sizeUnderflow ∧
    MachErr.sizeUnderflow ≠ MachErr.truncatedInput := by
  refine ⟨?_, by decide⟩
  unfold readCmds
  rw [hc, hs]
  simp [Bind.bind, Except.bind, if_pos h8]

/-- Witness for C7: a single record declaring size 4. -/
theorem c7_size_underflow_witness :
    readCmds ByteOrder.big [0, 0, 0, 1, 0, 0, 0, 4] 1 0 = Except.error MachErr.sizeUnderflow ∧
    MachErr.sizeUnderflow ≠ MachErr.truncatedInput :=
  c7_size_underflow ByteOrder.big [0, 0, 0, 1, 0, 0, 0, 4] 0 0 1 4 rfl rfl (by decide)

/-! ### Truncation lemmas: a successful read on a prefix agrees with the full
buffer, and every failure caused by truncation is `truncatedInput` -/

theorem readU32At_short {ord : ByteOrder} {data : List Nat} {pos : Nat}
    (h : data.length < pos + 4) :
    readU32At ord data pos = Except.error MachErr.truncatedInput := by
  have h3 : data[pos + 3]? = none := List.getElem?_eq_none (by omega)
  unfold readU32At
  cases h0 : data[pos]? <;> cases h1 : data[pos + 1]? <;> cases h2 : data[pos + 2]? <;>
    simp [h0, h1, h2, h3]

theorem read_header_error_eq {ord : ByteOrder} {data : List Nat} {is64 : Bool} {e : MachErr}
    (h : read_header ord data is64 = Except.error e) : e = MachErr.truncatedInput := by
  unfold read_header at h
  rcases bind_error_inv h with h | ⟨m, _, h⟩
  · exact readU32At_error_eq h
  rcases bind_error_inv h with h | ⟨v1, _, h⟩
  · exact readU32At_error_eq h
  rcases bind_error_inv h with h | ⟨v2, _, h⟩
  · exact readU32At_error_eq h
  rcases bind_error_inv h with h | ⟨v3, _, h⟩
  · exact readU32At_error_eq h
  rcases bind_error_inv h with h | ⟨v4, _, h⟩
  · exact readU32At_error_eq h
  rcases bind_error_inv h with h | ⟨v5, _, h⟩
  · exact readU32At_error_eq h
  rcases bind_error_inv h with h | ⟨v6, _, h⟩
  · exact readU32At_error_eq h
  rcases bind_error_inv h with h | ⟨v7, _, h⟩
  · cases is64 with
    | false => simp at h
    | true => exact readU32At_error_eq (by simpa using h)
  · simp at h

theorem read_header_take_ok {ord : ByteOrder} {data : List Nat} {n : Nat} {is64 : Bool}
    {hd : MachHeader} (hh : read_header ord (data.take n) is64 = Except.ok hd) :
    read_header ord data is64 = Except.ok hd := by
  unfold read_header at hh ⊢
  obtain ⟨m, hm, hh⟩ := bind_ok_inv hh
  obtain ⟨v1, hv1, hh⟩ := bind_ok_inv hh
  obtain ⟨v2, hv2, hh⟩ := bind_ok_inv hh
  obtain ⟨v3, hv3, hh⟩ := bind_ok_inv hh
  obtain ⟨v4, hv4, hh⟩ := bind_ok_inv hh
  obtain ⟨v5, hv5, hh⟩ := bind_ok_inv hh
  obtain ⟨v6, hv6, hh⟩ := bind_ok_inv hh
  obtain ⟨v7, hv7, hh⟩ := bind_ok_inv hh
  have hv7' : (if is64 then readU32At ord data 28 else Except.ok 0) = Except.ok v7 := by
    cases is64 with
    | false => simpa using hv7
    | true => simpa using readU32At_take_ok (by simpa using hv7)
  simp only [readU32At_take_ok hm, readU32At_take_ok hv1, readU32At_take_ok hv2,
    readU32At_take_ok hv3, readU32At_take_ok hv4, readU32At_take_ok hv5,
    readU32At_take_ok hv6, hv7', Bind.bind, Except.bind]
  exact hh

theorem readCmds_take {ord : ByteOrder} {data : List Nat} (k : Nat) {pos : Nat}
    {r : List LoadCommand × Nat} (h : readCmds ord data k pos = Except.ok r) (n : Nat) :
    readCmds ord (data.take n) k pos = Except.ok r ∨
    readCmds ord (data.take n) k pos = Except.error MachErr.truncatedInput := by
  induction k generalizing pos r with
  | zero =>
    left
    simp only [readCmds] at h ⊢
    exact h
  | succ k ih =>
    simp only [readCmds] at h
    obtain ⟨c, hc, h⟩ := bind_ok_inv h
    obtain ⟨s, hs, h⟩ := bind_ok_inv h
    by_cases h8 : s < 8
    · rw [if_pos h8] at h
      simp at h
    rw [if_neg h8] at h
    obtain ⟨payload, hp, h⟩ := bind_ok_inv h
    obtain ⟨res, hrec, h⟩ := bind_ok_inv h
    simp only [readCmds]
    cases k0 : readU32At ord (data.take n) pos with
    | error e =>
      right
      have he := readU32At_error_eq k0
      subst he
      simp [k0, Bind.bind, Except.bind]
    | ok c0 =>
      have hc0 : c0 = c := by
        have h2 := readU32At_take_ok k0
        rw [h2] at hc
        exact Except.ok.inj hc
      subst hc0
      cases k1 : readU32At ord (data.take n) (pos + 4) with
      | error e =>
        right
        have he := readU32At_error_eq k1
        subst he
        simp [k0, k1, Bind.bind, Except.bind]
      | ok s0 =>
        have hs0 : s0 = s := by
          have h2 := readU32At_take_ok k1
          rw [h2] at hs
          exact Except.ok.inj hs
        subst hs0
        cases k2 : readBytes (data.take n) (pos + 8) (s0 - 8) with
        | error e =>
          right
          have he := readBytes_error_eq k2
          subst he
          simp [k0, k1, k2, Bind.bind, Except.bind, if_neg h8]
        | ok p0 =>
          have hp0 : p0 = payload := by
            have h2 := readBytes_take_ok k2
            rw [h2] at hp
            exact Except.ok.inj hp
          subst hp0
          rcases ih hrec with hr | hr
          · left
            simp [k0, k1, k2, hr, Bind.bind, Except.bind, if_neg h8]
            simpa using h
          · right
            simp [k0, k1, k2, hr, Bind.bind, Except.bind, if_neg h8]

theorem detect_take {data : List Nat} {fmt : Bool × Bool}
    (h : detectFormat data = Except.ok fmt) (n : Nat) :
    detectFormat (data.take n) = Except.ok fmt ∨
    detectFormat (data.take n) = Except.error MachErr.truncatedInput := by
  unfold detectFormat at h ⊢
  obtain ⟨m, hm, h⟩ := bind_ok_inv h
  cases k0 : readU32At ByteOrder.big (data.take n) 0 with
  | error e =>
    right
    have he := readU32At_error_eq k0
    subst he
    simp [k0, Bind.bind, Except.bind]
  | ok m0 =>
    have hm0 : m0 = m := by
      have h2 := readU32At_take_ok k0
      rw [h2] at hm
      exact Except.ok.inj hm
    subst hm0
    left
    simp only [k0, Bind.bind, Except.bind]
    exact h

theorem parse_take {data : List Nat} {r : MachHeader × List LoadCommand}
    (h : parse_macho data = Except.ok r) (n : Nat) :
    parse_macho (data.take n) = Except.ok r ∨
    parse_macho (data.take n) = Except.error MachErr.truncatedInput := by
  unfold parse_macho at h ⊢
  obtain ⟨fmt, hfmt, h⟩ := bind_ok_inv h
  obtain ⟨hd, hhd, h⟩ := bind_ok_inv h
  obtain ⟨res, hres, h⟩ := bind_ok_inv h
  rcases detect_take hfmt n with k | k
  swap
  · right
    simp [k, Bind.bind, Except.bind]
  cases kh : read_header (ordOf fmt.2) (data.take n) fmt.1 with
  | error e =>
    right
    have he := read_header_error_eq kh
    subst he
    simp [k, kh, Bind.bind, Except.bind]
  | ok hd0 =>
    have hhd0 : hd0 = hd := by
      have h2 := read_header_take_ok kh
      rw [h2] at hhd
      exact Except.ok.inj hhd
    subst hhd0
    rcases readCmds_take _ hres n with kr | kr
    · left
      simp only [k, kh, kr, Bind.bind, Except.bind]
      exact h
    · right
      simp [k, kh, kr, Bind.bind, Except.bind]

/-- C9: a buffer shorter than a structure being read requires fails cleanly.
First part: a 3-byte buffer (too short for any magic) fails with
`truncatedInput` (which satisfies the claim's "UnrecognizedFormat or
TruncatedInput").  Second part: truncating any parseable buffer can only
produce `truncatedInput`, never a panic, an out-of-bounds read (the embedded
reads are total and bounds-checked), or a different error condition. -/
theorem c9_truncation_safe (data : List Nat) :
    (data.length = 3 → parse_macho data = Except.error MachErr.truncatedInput) ∧
    (∀ r, parse_macho data = Except.ok r → ∀ n e,
      parse_macho (data.take n) = Except.error e → e = MachErr.truncatedInput) := by
  constructor
  · intro h3
    have hr : readU32At ByteOrder.big data 0 = Except.error MachErr.truncatedInput :=
      readU32At_short (by omega)
    unfold parse_macho detectFormat
    simp [hr, Bind.bind, Except.bind]
  · intro r hok n e herr
    rcases parse_take hok n with k | k
    · rw [k] at herr
      simp at herr
    · rw [k] at herr
      exact (Except.error.inj herr).symm

/-- Witness for C9: the 3-byte buffer fails with `truncatedInput`, and
truncating the worked example to 10 bytes also fails with `truncatedInput`. -/
theorem c9_truncation_safe_witness :
    parse_macho (List.replicate 3 0) = Except.error MachErr.truncatedInput ∧
    MachErr.truncatedInput = MachErr.truncatedInput :=
  ⟨(c9_truncation_safe (List.replicate 3 0)).1 rfl,
   (c9_truncation_safe ex64Buf).2 (exHeader64, []) rfl 10 MachErr.truncatedInput rfl⟩

/-! ### Byte-order lemmas for the header magic -/

theorem readU32At_big_inv {data : List Nat} {pos m : Nat}
    (h : readU32At ByteOrder.big data pos = Except.ok m) :
    ∃ b0 b1 b2 b3, m = word32 ByteOrder.big b0 b1 b2 b3 ∧
      readU32At ByteOrder.little data pos =
        Except.ok (word32 ByteOrder.little b0 b1 b2 b3) := by
  unfold readU32At at h
  cases h0 : data[pos]? <;> cases h1 : data[pos + 1]? <;> cases h2 : data[pos + 2]? <;>
    cases h3 : data[pos + 3]? <;> simp [h0, h1, h2, h3] at h
  exact ⟨_, _, _, _, h.symm, by simp [readU32At, h0, h1, h2, h3]⟩

theorem word32_swap_cigam {b0 b1 b2 b3 : Nat}
    (h : word32 ByteOrder.big b0 b1 b2 b3 = MH_CIGAM) :
    word32 ByteOrder.little b0 b1 b2 b3 = MH_MAGIC := by
  simp [word32, MH_CIGAM, MH_MAGIC] at h ⊢
  omega

theorem word32_swap_cigam64 {b0 b1 b2 b3 : Nat}
    (h : word32 ByteOrder.big b0 b1 b2 b3 = MH_CIGAM_64) :
    word32 ByteOrder.little b0 b1 b2 b3 = MH_MAGIC_64 := by
  simp [word32, MH_CIGAM_64, MH_MAGIC_64] at h ⊢
  omega

theorem read_header_magic {ord : ByteOrder} {data : List Nat} {is64 : Bool} {hd : MachHeader}
    (hh : read_header ord data is64 = Except.ok hd) :
    readU32At ord data 0 = Except.ok hd.magic := by
  unfold read_header at hh
  obtain ⟨m, hm, hh⟩ := bind_ok_inv hh
  obtain ⟨v1, hv1, hh⟩ := bind_ok_inv hh
  obtain ⟨v2, hv2, hh⟩ := bind_ok_inv hh
  obtain ⟨v3, hv3, hh⟩ := bind_ok_inv hh
  obtain ⟨v4, hv4, hh⟩ := bind_ok_inv hh
  obtain ⟨v5, hv5, hh⟩ := bind_ok_inv hh
  obtain ⟨v6, hv6, hh⟩ := bind_ok_inv hh
  obtain ⟨v7, hv7, hh⟩ := bind_ok_inv hh
  cases hh
  exact hm

theorem detect_inv {data : List Nat} {is64 isLE : Bool}
    (h : detectFormat data = Except.ok (is64, isLE)) :
    ∃ m, readU32At ByteOrder.big data 0 = Except.ok m ∧
      ((m = MH_MAGIC ∧ (is64, isLE) = (false, false)) ∨
       (m = MH_CIGAM ∧ (is64, isLE) = (false, true)) ∨
       (m = MH_MAGIC_64 ∧ (is64, isLE) = (true, false)) ∨
       (m = MH_CIGAM_64 ∧ (is64, isLE) = (true, true))) := by
  unfold detectFormat at h
  obtain ⟨m, hm, h⟩ := bind_ok_inv h
  refine ⟨m, hm, ?_⟩
  split_ifs at h with h1 h2 h3 h4
  · exact Or.inl ⟨h1, (Except.ok.inj h).symm⟩
  · exact Or.inr (Or.inl ⟨h2, (Except.ok.inj h).symm⟩)
  · exact Or.inr (Or.inr (Or.inl ⟨h3, (Except.ok.inj h).symm⟩))
  · exact Or.inr (Or.inr (Or.inr ⟨h4, (Except.ok.inj h).symm⟩))

/-- C10: for every valid input, the splicer's header size is 32 bytes exactly
when the detected format is 64-bit (both native and swapped magic, since the
re-read magic field normalizes to the native constant) and 28 bytes otherwise,
and the insertion offset is that header size plus the sum of the declared
sizes of the existing records. -/
theorem c10_header_size_and_insert_offset (data : List Nat) (header : MachHeader)
    (cmds : List LoadCommand) (is64 isLE : Bool)
    (hp : parse_macho data = Except.ok (header, cmds))
    (hd : detectFormat data = Except.ok (is64, isLE)) :
    header.magic = (if is64 then MH_MAGIC_64 else MH_MAGIC) ∧
    headerSizeOf header = (if is64 then 32 else 28) ∧
    insertOffsetOf header cmds = headerSizeOf header + (cmds.map LoadCommand.cmdsize).sum := by
  unfold parse_macho at hp
  obtain ⟨fmt, hfmt, hp⟩ := bind_ok_inv hp
  have hfmt' : fmt = (is64, isLE) := by
    rw [hfmt] at hd
    exact Except.ok.inj hd
  subst hfmt'
  obtain ⟨hdr, hhdr, hp⟩ := bind_ok_inv hp
  obtain ⟨res, hres, hp⟩ := bind_ok_inv hp
  have hpair := Except.ok.inj hp
  have hhdr' : hdr = header := congrArg Prod.fst hpair
  subst hhdr'
  have hmagic := read_header_magic hhdr
  obtain ⟨m, hm, hcases⟩ := detect_inv hd
  have hmag : hdr.magic = (if is64 then MH_MAGIC_64 else MH_MAGIC) := by
    cases hLE : isLE with
    | false =>
      subst hLE
      have hbig : readU32At ByteOrder.big data 0 = Except.ok hdr.magic := by
        simpa [ordOf] using hmagic
      have hm' : hdr.magic = m := by
        rw [hbig] at hm
        exact Except.ok.inj hm
      rcases hcases with ⟨he, hpq⟩ | ⟨he, hpq⟩ | ⟨he, hpq⟩ | ⟨he, hpq⟩ <;> simp_all
    | true =>
      subst hLE
      have hlittle : readU32At ByteOrder.little data 0 = Except.ok hdr.magic := by
        simpa [ordOf] using hmagic
      obtain ⟨b0, b1, b2, b3, hmval, hlit⟩ := readU32At_big_inv hm
      have hmag' : hdr.magic = word32 ByteOrder.little b0 b1 b2 b3 := by
        rw [hlittle] at hlit
        exact Except.ok.inj hlit
      rcases hcases with ⟨he, hpq⟩ | ⟨he, hpq⟩ | ⟨he, hpq⟩ | ⟨he, hpq⟩
      · simp at hpq
      · have hcig : word32 ByteOrder.big b0 b1 b2 b3 = MH_CIGAM := by
          rw [← hmval]
          exact he
        have h32 := word32_swap_cigam hcig
        have his : is64 = false := by
          have h4 := congrArg Prod.fst hpq
          simpa using h4
        rw [his, hmag', h32]
        rfl
      · simp at hpq
      · have hcig : word32 ByteOrder.big b0 b1 b2 b3 = MH_CIGAM_64 := by
          rw [← hmval]
          exact he
        have h32 := word32_swap_cigam64 hcig
        have his : is64 = true := by
          have h4 := congrArg Prod.fst hpq
          simpa using h4
        rw [his, hmag', h32]
        rfl
  refine ⟨hmag, ?_, rfl⟩
  cases is64 with
  | false =>
    simp only [Bool.false_eq_true, if_false] at hmag ⊢
    simp [headerSizeOf, hmag, MH_MAGIC, MH_MAGIC_64, MH_CIGAM_64]
  | true =>
    simp only [if_true] at hmag ⊢
    simp [headerSizeOf, hmag]

/-- Witness for C10 on a 64-bit swapped-order (little-endian) file, whose
stored magic reads `MH_CIGAM_64` but whose parsed magic field normalizes to
`MH_MAGIC_64`. -/
theorem c10_header_size_and_insert_offset_witness :
    exHeader64.magic = (if true then MH_MAGIC_64 else MH_MAGIC) ∧
    headerSizeOf exHeader64 = (if true then 32 else 28) ∧
    insertOffsetOf exHeader64 [] = headerSizeOf exHeader64 +
      (([] : List LoadCommand).map LoadCommand.cmdsize).sum :=
  c10_header_size_and_insert_offset leBuf64 exHeader64 [] true true rfl rfl
